import Mathlib

/-!
Shallow embedding of the People's Bill platform (peoples-bill-ghana frontend)
and verification of its specification claims.

Sources embedded here:
* `frontend/app/bill/page.tsx` — `handleVote`, the local approval-rate update
  and the "Average Approval" statistic of `BillPage`;
* `frontend/lib/api.ts` — `submitVote`, the vote request payload;
* the submission form — `submissionSchema` (zod) and `GHANA_REGIONS`;
* `components/ui/use-toast` — the global toast queue with its 5000 ms timeout;
* `lib/utils` — `truncateText`.

Parts of the repository that exist only behind the HTTP API (the FastAPI
backend: stats aggregation, server-side vote acceptance) are not present in
the sources; where a claim depends on them they are modelled from the spec,
and each such definition is marked `Modelled from the spec:`.
-/

/-! ## Vote aggregation (frontend/app/bill/page.tsx, handleVote) -/

/-- The two vote kinds accepted by `handleVote` (`'approve' | 'reject'`). -/
inductive VoteType where
  | approve
  | reject
deriving DecidableEq, Repr

/-- `const adjustment = voteType === 'approve' ? 0.5 : -0.5` in `handleVote`. -/
def voteAdjustment : VoteType → ℚ
  | .approve => 1/2
  | .reject => -(1/2)

/-- The local approval-rate update in `handleVote`:
`Math.max(0, Math.min(100, clause.approval_rate + adjustment))`. -/
def applyVote (rate : ℚ) (v : VoteType) : ℚ :=
  max 0 (min 100 (rate + voteAdjustment v))

/-- A sequence of votes applied one at a time through `applyVote`. -/
def applyVotes (rate : ℚ) (votes : List VoteType) : ℚ :=
  votes.foldl applyVote rate

/-- Number of approve votes in a vote log. -/
def approvalsCount (log : List VoteType) : ℕ :=
  log.countP (fun v => decide (v = VoteType.approve))

/-- Number of reject votes in a vote log. -/
def rejectionsCount (log : List VoteType) : ℕ :=
  log.countP (fun v => decide (v = VoteType.reject))

/-- Modelled from the spec: the Vote Aggregator contract
`approvals / (approvals + rejections) * 100`, the full-log recomputation that
the spec prescribes for `approval_rate`. -/
def logApprovalRate (log : List VoteType) : ℚ :=
  (approvalsCount log : ℚ) / ((approvalsCount log : ℚ) + (rejectionsCount log : ℚ)) * 100

/-! Helper bounds for the clamped update. -/

theorem applyVote_nonneg (rate : ℚ) (v : VoteType) : 0 ≤ applyVote rate v :=
  le_max_left 0 _

theorem applyVote_le_100 (rate : ℚ) (v : VoteType) : applyVote rate v ≤ 100 :=
  max_le (by norm_num) (min_le_left _ _)

theorem applyVotes_bounds :
    ∀ (votes : List VoteType) (rate : ℚ), 0 ≤ rate → rate ≤ 100 →
      0 ≤ applyVotes rate votes ∧ applyVotes rate votes ≤ 100 := by
  intro votes
  induction votes with
  | nil => intro rate h0 h1; exact ⟨h0, h1⟩
  | cons v vs ih =>
    intro rate _ _
    have h := ih (applyVote rate v) (applyVote_nonneg rate v) (applyVote_le_100 rate v)
    simpa [applyVotes, List.foldl] using h

/-- C1: for every clause and every sequence of approve/reject votes, the
approval rate stays within `[0, 100]`; the incremental update clamps to
`[0, 100]` after every single update. -/
theorem approval_rate_stays_bounded :
    (∀ (rate : ℚ) (v : VoteType), 0 ≤ applyVote rate v ∧ applyVote rate v ≤ 100) ∧
    (∀ (rate : ℚ) (votes : List VoteType), 0 ≤ rate → rate ≤ 100 →
      0 ≤ applyVotes rate votes ∧ applyVotes rate votes ≤ 100) :=
  ⟨fun rate v => ⟨applyVote_nonneg rate v, applyVote_le_100 rate v⟩,
   fun rate votes h0 h1 => applyVotes_bounds votes rate h0 h1⟩

/-- Witness for C1 at rate 50 with one approve followed by one reject. -/
theorem approval_rate_stays_bounded_witness :
    0 ≤ applyVotes 50 [VoteType.approve, VoteType.reject] ∧
      applyVotes 50 [VoteType.approve, VoteType.reject] ≤ 100 :=
  approval_rate_stays_bounded.2 50 [VoteType.approve, VoteType.reject]
    (by norm_num) (by norm_num)

/-- Evaluation of the clamped update when no clamping occurs. -/
theorem applyVote_eq_of_bounds (rate : ℚ) (v : VoteType)
    (h0 : 0 ≤ rate + voteAdjustment v) (h1 : rate + voteAdjustment v ≤ 100) :
    applyVote rate v = rate + voteAdjustment v := by
  unfold applyVote
  rw [min_eq_right h1, max_eq_right h0]

/-- Applying `k` approve votes without hitting the upper clamp adds `k/2`. -/
theorem applyVotes_replicate_approve :
    ∀ (k : ℕ) (r : ℚ), 0 ≤ r → r + (k : ℚ) * (1/2) ≤ 100 →
      applyVotes r (List.replicate k VoteType.approve) = r + (k : ℚ) * (1/2) := by
  intro k
  induction k with
  | zero => intro r _ _; simp [applyVotes]
  | succ n ih =>
    intro r h0 h1
    have hcast : ((n + 1 : ℕ) : ℚ) = (n : ℚ) + 1 := by push_cast; ring
    have hn : (0 : ℚ) ≤ (n : ℚ) * (1/2) := by positivity
    have hstep : applyVote r VoteType.approve = r + 1/2 := by
      have hv : voteAdjustment VoteType.approve = 1/2 := rfl
      rw [applyVote_eq_of_bounds r VoteType.approve (by rw [hv]; linarith)
        (by rw [hv]; rw [hcast] at h1; linarith), hv]
    have hrec : applyVotes r (List.replicate (n + 1) VoteType.approve) =
        applyVotes (applyVote r VoteType.approve) (List.replicate n VoteType.approve) := by
      simp [applyVotes, List.replicate_succ]
    rw [hrec, hstep, ih (r + 1/2) (by linarith) (by rw [hcast] at h1; linarith), hcast]
    ring

/-- C2 counterexample: a clause at rate 50 records one approve vote. The code
nudges the rate to 50.5, while recomputation from the full vote log (one
approval, zero rejections) gives 100; the two disagree. -/
theorem vote_update_is_not_log_recompute_cex :
    applyVote 50 VoteType.approve = 101/2 ∧
      logApprovalRate [VoteType.approve] = 100 ∧
      applyVote 50 VoteType.approve ≠ logApprovalRate [VoteType.approve] := by
  have h1 : applyVote 50 VoteType.approve = 101/2 := by
    have hv : voteAdjustment VoteType.approve = 1/2 := rfl
    rw [applyVote_eq_of_bounds 50 VoteType.approve (by rw [hv]; norm_num)
      (by rw [hv]; norm_num), hv]
    norm_num
  have ha : approvalsCount [VoteType.approve] = 1 := rfl
  have hr : rejectionsCount [VoteType.approve] = 0 := rfl
  have h2 : logApprovalRate [VoteType.approve] = 100 := by
    unfold logApprovalRate
    rw [ha, hr]
    norm_num
  exact ⟨h1, h2, by rw [h1, h2]; norm_num⟩

/-- C2 amended: after a vote is recorded the approval rate is produced by an
incremental nudge — it moves by at most 0.5 from the previous value and is
clamped to `[0, 100]` — rather than being recomputed from the vote log. -/
theorem vote_update_incremental_nudge (rate : ℚ) (v : VoteType)
    (h0 : 0 ≤ rate) (h1 : rate ≤ 100) :
    |applyVote rate v - rate| ≤ 1/2 ∧
      0 ≤ applyVote rate v ∧ applyVote rate v ≤ 100 := by
  refine ⟨?_, applyVote_nonneg rate v, applyVote_le_100 rate v⟩
  rw [abs_le]
  cases v with
  | approve =>
    have hv : voteAdjustment VoteType.approve = 1/2 := rfl
    rcases le_total (rate + 1/2) 100 with hm | hm
    · rw [applyVote_eq_of_bounds rate VoteType.approve (by rw [hv]; linarith)
        (by rw [hv]; linarith), hv]
      constructor <;> linarith
    · have heq : applyVote rate VoteType.approve = 100 := by
        unfold applyVote
        rw [hv, min_eq_left hm, max_eq_right (by norm_num)]
      rw [heq]
      constructor <;> linarith
  | reject =>
    have hv : voteAdjustment VoteType.reject = -(1/2) := rfl
    rcases le_total 0 (rate + -(1/2)) with hx | hx
    · rw [applyVote_eq_of_bounds rate VoteType.reject (by rw [hv]; linarith)
        (by rw [hv]; linarith), hv]
      constructor <;> linarith
    · have heq : applyVote rate VoteType.reject = 0 := by
        unfold applyVote
        rw [hv, min_eq_right (by linarith), max_eq_left hx]
      rw [heq]
      constructor <;> linarith

/-- Witness for the C2 amended theorem at rate 50 with one approve vote. -/
theorem vote_update_incremental_nudge_witness :
    |applyVote 50 VoteType.approve - 50| ≤ 1/2 ∧
      0 ≤ applyVote 50 VoteType.approve ∧ applyVote 50 VoteType.approve ≤ 100 :=
  vote_update_incremental_nudge 50 VoteType.approve (by norm_num) (by norm_num)

/-- C3 counterexample: starting from rate 50, ten approve votes and zero
reject votes leave the rate at 55, not 100. -/
theorem ten_approvals_do_not_reach_100_cex :
    applyVotes 50 (List.replicate 10 VoteType.approve) = 55 ∧
      applyVotes 50 (List.replicate 10 VoteType.approve) ≠ 100 := by
  have h : applyVotes 50 (List.replicate 10 VoteType.approve) = 55 := by
    rw [applyVotes_replicate_approve 10 50 (by norm_num) (by norm_num)]
    norm_num
  exact ⟨h, by rw [h]; norm_num⟩

/-- C3 amended: starting from rate 50.0, recording ten approve votes brings
the rate to 55.0 (each vote nudges it by +0.5), and after any number of
approve votes the rate never exceeds 100 nor drops below 0. -/
theorem ten_approvals_reach_55 :
    applyVotes 50 (List.replicate 10 VoteType.approve) = 55 ∧
    ∀ k : ℕ, 0 ≤ applyVotes 50 (List.replicate k VoteType.approve) ∧
      applyVotes 50 (List.replicate k VoteType.approve) ≤ 100 := by
  constructor
  · rw [applyVotes_replicate_approve 10 50 (by norm_num) (by norm_num)]
    norm_num
  · intro k
    exact applyVotes_bounds (List.replicate k VoteType.approve) 50
      (by norm_num) (by norm_num)

/-! ## Submission form validation (submissionSchema, zod) -/

/-- The two length bounds a submission text can violate in
`submissionSchema` (`z.string().min(10, ...).max(5000, ...)`). -/
inductive ContentBoundError where
  | belowMinimum
  | aboveMaximum
deriving DecidableEq, Repr

/-- The minimum content length of `submissionSchema` (`.min(10, ...)`). -/
def contentMinLength : ℕ := 10

/-- The maximum content length of `submissionSchema` (`.max(5000, ...)`). -/
def contentMaxLength : ℕ := 5000

/-- The content length checks of `submissionSchema`: the zod `min` check
fires when the length is below 10, the `max` check when it is above 5000;
`none` means the text passes both length checks. -/
def validateContent (content : List Char) : Option ContentBoundError :=
  if content.length < contentMinLength then some ContentBoundError.belowMinimum
  else if contentMaxLength < content.length then some ContentBoundError.aboveMaximum
  else none

/-- C4: validation rejects a submission text, naming the violated bound,
exactly when its length is below 10 or above 5000; the 2-character text
"ok" is rejected with the minimum-length error, and every text of length
between 10 and 5000 inclusive passes. -/
theorem content_length_validation :
    (∀ content : List Char,
      (validateContent content = some ContentBoundError.belowMinimum ↔
        content.length < contentMinLength) ∧
      (validateContent content = some ContentBoundError.aboveMaximum ↔
        contentMaxLength < content.length) ∧
      (validateContent content = none ↔
        contentMinLength ≤ content.length ∧ content.length ≤ contentMaxLength)) ∧
    validateContent ['o', 'k'] = some ContentBoundError.belowMinimum := by
  constructor
  · intro content
    unfold validateContent contentMinLength contentMaxLength
    refine ⟨?_, ?_, ?_⟩ <;> split_ifs <;> simp <;> omega
  · decide

/-- A JavaScript number as produced by `parseInt`: either `NaN` or an
integer value. -/
inductive JSNum where
  | nan
  | int (n : ℤ)
deriving DecidableEq, Repr

/-- Decimal value of a digit list, as accumulated by `parseInt`. -/
def digitsVal (ds : List Char) : ℕ :=
  ds.foldl (fun n c => n * 10 + (c.toNat - 48)) 0

/-- Leading decimal digits of a string; `none` when there are none
(in which case `parseInt` yields `NaN`). -/
def parseDigits (s : List Char) : Option ℕ :=
  let ds := s.takeWhile Char.isDigit
  if ds.isEmpty then none else some (digitsVal ds)

/-- JavaScript `parseInt` on a trimmed string: an optional sign followed by
leading decimal digits; `NaN` when no digits are present. -/
def parseIntJS (s : List Char) : JSNum :=
  match s with
  | '-' :: r =>
    match parseDigits r with
    | none => JSNum.nan
    | some n => JSNum.int (-(n : ℤ))
  | '+' :: r =>
    match parseDigits r with
    | none => JSNum.nan
    | some n => JSNum.int (n : ℤ)
  | r =>
    match parseDigits r with
    | none => JSNum.nan
    | some n => JSNum.int (n : ℤ)

/-- The age field of `submissionSchema`:
`z.string().optional().transform(val => val ? parseInt(val) : undefined)`.
The transform never fails; an absent or empty string yields no age, any
other string is converted with `parseInt`. -/
def validateAge (val : Option (List Char)) : Except (List Char) (Option JSNum) :=
  Except.ok (match val with
    | none => none
    | some v => if v.isEmpty then none else some (parseIntJS v))

/-- The occupation field of `submissionSchema` (`z.string().optional()`),
passed through without any transform. -/
def validateOccupation (val : Option (List Char)) : Except (List Char) (Option (List Char)) :=
  Except.ok val

/-- Whether schema validation of a field succeeded. -/
def exceptIsOk {ε α : Type} : Except ε α → Bool
  | Except.ok _ => true
  | Except.error _ => false

/-- C5 counterexample: a submission supplying age "999" passes the schema
with age 999 — no validation error is raised although 999 is far outside
the plausible human range (the 18–120 bounds exist only as HTML attributes
on the input element). -/
theorem age_range_not_validated_cex :
    validateAge (some ['9', '9', '9']) = Except.ok (some (JSNum.int 999)) ∧
      ¬((18 : ℤ) ≤ 999 ∧ (999 : ℤ) ≤ 120) := by
  refine ⟨rfl, by decide⟩

/-- C5 amended: the schema never rejects a supplied age — every age string
is accepted and converted with `parseInt` (so age 999 passes with value
999); the occupation field is passed through unmodified. -/
theorem age_accepted_without_range_check :
    (∀ val, exceptIsOk (validateAge val) = true) ∧
    (∀ val, validateOccupation val = Except.ok val) ∧
    validateAge (some ['9', '9', '9']) = Except.ok (some (JSNum.int 999)) := by
  refine ⟨fun val => rfl, fun val => rfl, rfl⟩

/-! ## Utilities (lib/utils, truncateText) -/

/-- The default `maxLength` of `truncateText`. -/
def truncateDefaultMaxLength : ℕ := 100

/-- `truncateText` from `lib/utils`:
`if (text.length <= maxLength) return text; return text.slice(0, maxLength) + '...'`. -/
def truncateText (text : List Char) (maxLength : ℕ) : List Char :=
  if text.length ≤ maxLength then text
  else text.take maxLength ++ ['.', '.', '.']

/-- `truncateText` called without a `maxLength` argument uses the default 100. -/
def truncateTextDefault (text : List Char) : List Char :=
  truncateText text truncateDefaultMaxLength

/-- C9: `truncateText` returns the text unchanged when its length is at most
`maxLength`, and otherwise returns the first `maxLength` characters followed
by "..." (total length `maxLength + 3`); the default `maxLength` is 100. -/
theorem truncateText_behavior :
    (∀ (text : List Char) (maxLength : ℕ),
      (text.length ≤ maxLength → truncateText text maxLength = text) ∧
      (maxLength < text.length →
        truncateText text maxLength = text.take maxLength ++ ['.', '.', '.'] ∧
        (truncateText text maxLength).length = maxLength + 3)) ∧
    truncateDefaultMaxLength = 100 ∧
    (∀ text : List Char, truncateTextDefault text = truncateText text 100) := by
  refine ⟨?_, rfl, fun text => rfl⟩
  intro text maxLength
  constructor
  · intro h
    unfold truncateText
    rw [if_pos h]
  · intro h
    have hne : ¬text.length ≤ maxLength := not_le.mpr h
    have heq : truncateText text maxLength = text.take maxLength ++ ['.', '.', '.'] := by
      unfold truncateText
      rw [if_neg hne]
    refine ⟨heq, ?_⟩
    rw [heq, List.length_append, List.length_take]
    simp [min_eq_left (le_of_lt h)]

/-- Witness for C9 on the 5-character text "hello" with maxLength 2. -/
theorem truncateText_behavior_witness :
    truncateText ['h', 'e', 'l', 'l', 'o'] 2 =
      (['h', 'e', 'l', 'l', 'o'] : List Char).take 2 ++ ['.', '.', '.'] ∧
    (truncateText ['h', 'e', 'l', 'l', 'o'] 2).length = 2 + 3 :=
  (truncateText_behavior.1 ['h', 'e', 'l', 'l', 'o'] 2).2 (by decide)

/-! ## Bill page statistics (frontend/app/bill/page.tsx, BillPage) -/

/-- The `BillClause` interface of `frontend/app/bill/page.tsx`. -/
structure BillClause where
  id : ℕ
  section_number : ℕ
  title : List Char
  content : List Char
  rationale : List Char
  cluster_id : ℕ
  submission_count : ℕ
  approval_rate : ℚ
  created_at : List Char
  updated_at : List Char
deriving DecidableEq, Repr

/-- The "Average Approval" statistic of `BillPage`:
`clauses.length > 0 ? Math.round(clauses.reduce((sum, c) => sum + c.approval_rate, 0) / clauses.length) : 0`. -/
def averageApproval (clauses : List BillClause) : ℤ :=
  if 0 < clauses.length then
    round (clauses.foldl (fun sum c => sum + c.approval_rate) 0 / (clauses.length : ℚ))
  else 0

/-- The arithmetic mean of the approval rates, stated independently of the
fold used by the code. -/
def meanApprovalRate (clauses : List BillClause) : ℚ :=
  (clauses.map BillClause.approval_rate).sum / (clauses.length : ℚ)

theorem foldl_add_approval (clauses : List BillClause) :
    ∀ init : ℚ, clauses.foldl (fun sum c => sum + c.approval_rate) init =
      init + (clauses.map BillClause.approval_rate).sum := by
  induction clauses with
  | nil => intro init; simp
  | cons c cs ih =>
    intro init
    simp [List.foldl, ih (init + c.approval_rate)]
    ring

/-- C10: the average-approval display never divides by zero — it shows 0 for
an empty clause list, and otherwise the rounded arithmetic mean of the
clauses' approval rates. -/
theorem averageApproval_no_div_by_zero :
    averageApproval [] = 0 ∧
    ∀ clauses : List BillClause, clauses ≠ [] →
      averageApproval clauses = round (meanApprovalRate clauses) := by
  constructor
  · rfl
  · intro clauses hne
    have hlen : 0 < clauses.length := List.length_pos.mpr hne
    unfold averageApproval meanApprovalRate
    rw [if_pos hlen, foldl_add_approval clauses 0, zero_add]

/-- A concrete clause used by witnesses. -/
def sampleClause : BillClause :=
  { id := 1, section_number := 1, title := [], content := [], rationale := [],
    cluster_id := 1, submission_count := 3, approval_rate := 50,
    created_at := [], updated_at := [] }

/-- Witness for C10 on a one-clause list. -/
theorem averageApproval_no_div_by_zero_witness :
    averageApproval [sampleClause] = round (meanApprovalRate [sampleClause]) :=
  averageApproval_no_div_by_zero.2 [sampleClause] (by simp)

/-! ## Vote submission (handleVote guard and lib/api.ts submitVote) -/

/-- The body of the POST to `/api/vote` in `submitVote` of `lib/api.ts`:
`{ clause_id: clauseId, vote, region }`. These are the only fields sent —
there is no voter-identity token. -/
structure VoteRequest where
  clause_id : ℕ
  vote : VoteType
  region : Option (List Char)
deriving DecidableEq, Repr

/-- `submitVote(clauseId, vote, region?)` from `lib/api.ts`: the request
payload is built from the arguments alone. -/
def submitVote (clauseId : ℕ) (vote : VoteType) (region : Option (List Char)) :
    VoteRequest :=
  { clause_id := clauseId, vote := vote, region := region }

/-- The component state of `BillPage` relevant to voting: the local
`votedClauses` set and the clause list. -/
structure BillPageState where
  votedClauses : List ℕ
  clauses : List BillClause
deriving DecidableEq, Repr

/-- The `setClauses(clauses.map(...))` update inside `handleVote`: the voted
clause's rate is nudged and clamped, the others are unchanged. -/
def updateClauses (clauses : List BillClause) (clauseId : ℕ) (v : VoteType) :
    List BillClause :=
  clauses.map (fun clause =>
    if clause.id = clauseId then
      { clause with approval_rate := applyVote clause.approval_rate v }
    else clause)

/-- `handleVote` from `frontend/app/bill/page.tsx`: if the clause is already
in `votedClauses` the handler returns early — no request is sent and the
state is unchanged; otherwise a `VoteRequest` is sent (with no region and no
voter identity), the clause is added to `votedClauses`, and the local rate is
nudged. -/
def handleVote (s : BillPageState) (clauseId : ℕ) (v : VoteType) :
    BillPageState × Option VoteRequest :=
  if clauseId ∈ s.votedClauses then (s, none)
  else
    ({ votedClauses := clauseId :: s.votedClauses,
       clauses := updateClauses s.clauses clauseId v },
     some (submitVote clauseId v none))

/-- Modelled from the spec: the backend vote endpoint, absent from the
sources, "accepting unlimited repeat votes from the same source once the
client-side guard is bypassed" (spec section 9) — every incoming vote
request is appended to the vote log with no voter-identity deduplication. -/
def serverAcceptVote (log : List VoteRequest) (req : VoteRequest) : List VoteRequest :=
  req :: log

/-- Repeated direct submissions to the spec-modelled vote endpoint. -/
def serverAcceptAll (log : List VoteRequest) (reqs : List VoteRequest) : List VoteRequest :=
  reqs.foldl serverAcceptVote log

/-- Occurrences of a given vote request in the server's vote log. -/
def countVote (log : List VoteRequest) (req : VoteRequest) : ℕ :=
  log.countP (fun q => decide (q = req))

theorem serverAcceptAll_replicate :
    ∀ (n : ℕ) (log : List VoteRequest) (req : VoteRequest),
      countVote (serverAcceptAll log (List.replicate n req)) req =
        countVote log req + n := by
  intro n
  induction n with
  | zero => intro log req; simp [serverAcceptAll]
  | succ m ih =>
    intro log req
    have hstep : serverAcceptAll log (List.replicate (m + 1) req) =
        serverAcceptAll (req :: log) (List.replicate m req) := by
      simp [serverAcceptAll, List.replicate_succ, serverAcceptVote]
    rw [hstep, ih (req :: log) req]
    have hcons : countVote (req :: log) req = countVote log req + 1 := by
      simp [countVote]
    rw [hcons]
    omega

/-- C7: one-vote-per-clause enforcement is client-side only. A clause already
in the local `votedClauses` set causes a further vote attempt to send no
request and leave the state unchanged; a fresh vote sends a request built
solely from the clause id and vote kind (no voter-identity token); and the
spec-modelled server accepts every repeat of the same request once the
client-side guard is bypassed. -/
theorem vote_guard_client_side_only :
    (∀ (s : BillPageState) (c : ℕ) (v : VoteType),
      c ∈ s.votedClauses → handleVote s c v = (s, none)) ∧
    (∀ (s : BillPageState) (c : ℕ) (v : VoteType),
      c ∉ s.votedClauses →
        (handleVote s c v).2 = some { clause_id := c, vote := v, region := none }) ∧
    (∀ (n : ℕ) (log : List VoteRequest) (req : VoteRequest),
      countVote (serverAcceptAll log (List.replicate n req)) req =
        countVote log req + n) := by
  refine ⟨?_, ?_, serverAcceptAll_replicate⟩
  · intro s c v h
    unfold handleVote
    rw [if_pos h]
  · intro s c v h
    unfold handleVote
    rw [if_neg h]
    rfl

/-- Witness for C7: a second vote on clause 1 (already voted) changes
nothing and sends no request, while five bypassing resubmissions of the same
request are all accepted by the spec-modelled server. -/
theorem vote_guard_client_side_only_witness :
    handleVote { votedClauses := [1], clauses := [] } 1 VoteType.approve =
      ({ votedClauses := [1], clauses := [] }, none) ∧
    countVote (serverAcceptAll [] (List.replicate 5 (submitVote 1 VoteType.approve none)))
      (submitVote 1 VoteType.approve none) = countVote [] (submitVote 1 VoteType.approve none) + 5 :=
  ⟨vote_guard_client_side_only.1 { votedClauses := [1], clauses := [] } 1
      VoteType.approve (by decide),
   vote_guard_client_side_only.2.2 5 [] (submitVote 1 VoteType.approve none)⟩

/-! ## Statistics by region (GHANA_REGIONS and the stats aggregator) -/

/-- The 16 fixed regions of Ghana (`GHANA_REGIONS` in the submission page). -/
def GHANA_REGIONS : List String :=
  ["Greater Accra", "Ashanti", "Western", "Eastern", "Central",
   "Volta", "Oti", "Northern", "North East", "Savannah",
   "Upper East", "Upper West", "Bono", "Bono East", "Ahafo", "Western North"]

/-- A citizen submission as the stats aggregator sees it: its text and its
region. -/
structure Submission where
  content : List Char
  region : String
deriving DecidableEq, Repr

/-- Number of submissions from a given region. -/
def regionCount (subs : List Submission) (r : String) : ℕ :=
  subs.countP (fun s => decide (s.region = r))

/-- Modelled from the spec: the Stats Aggregator's `submissions_by_region`
output (the backend is absent from the sources) — "a mapping from region to
submission count (all regions present, zero-filled for regions with no
submissions)". -/
def submissionsByRegion (subs : List Submission) : List (String × ℕ) :=
  GHANA_REGIONS.map (fun r => (r, regionCount subs r))

/-- Modelled from the spec: the Stats Aggregator's `regions_represented`
output — the "set of distinct regions with at least one submission". -/
def regionsRepresented (subs : List Submission) : ℕ :=
  (GHANA_REGIONS.filter (fun r => decide (0 < regionCount subs r))).length

/-- One submission per each of the 16 regions (the spec scenario). -/
def oneSubmissionPerRegion : List Submission :=
  GHANA_REGIONS.map (fun r => { content := [], region := r })

theorem regionCount_pos_iff (subs : List Submission) (r : String) :
    0 < regionCount subs r ↔ r ∈ subs.map Submission.region := by
  unfold regionCount
  rw [List.countP_pos_iff]
  constructor
  · rintro ⟨s, hs, hp⟩
    exact List.mem_map.mpr ⟨s, hs, by simpa using hp⟩
  · intro hr
    rcases List.mem_map.mp hr with ⟨s, hs, hsr⟩
    exact ⟨s, hs, by simp [hsr]⟩

theorem regionsRepresented_eq_dedup (subs : List Submission)
    (h : ∀ s ∈ subs, s.region ∈ GHANA_REGIONS) :
    regionsRepresented subs = ((subs.map Submission.region).dedup).length := by
  have hfilter : GHANA_REGIONS.filter (fun r => decide (0 < regionCount subs r)) =
      GHANA_REGIONS.filter (fun r => decide (r ∈ subs.map Submission.region)) := by
    apply List.filter_congr
    intro r _
    simp [regionCount_pos_iff subs r]
  have hnodupG : GHANA_REGIONS.Nodup := by decide
  have hnodupF :
      (GHANA_REGIONS.filter (fun r => decide (r ∈ subs.map Submission.region))).Nodup :=
    hnodupG.filter _
  have hnodupD : (subs.map Submission.region).dedup.Nodup :=
    (subs.map Submission.region).nodup_dedup
  have hsub : ∀ r : String, r ∈ subs.map Submission.region → r ∈ GHANA_REGIONS := by
    intro r hr
    rcases List.mem_map.mp hr with ⟨s, hs, hsr⟩
    exact hsr ▸ h s hs
  have hperm : List.Perm
      (GHANA_REGIONS.filter (fun r => decide (r ∈ subs.map Submission.region)))
      ((subs.map Submission.region).dedup) := by
    rw [List.perm_ext_iff_of_nodup hnodupF hnodupD]
    intro r
    simp only [List.mem_filter, List.mem_dedup, decide_eq_true_eq]
    exact ⟨fun hp => hp.2, fun hr => ⟨hsub r hr, hr⟩⟩
  unfold regionsRepresented
  rw [hfilter, hperm.length_eq]

/-- C6: every one of the 16 fixed regions is present in
`submissions_by_region` with its (possibly zero) submission count;
`regions_represented` equals the number of distinct regions with at least one
submission; and in the one-submission-per-region scenario
`regions_represented` is 16 and every region maps to 1. -/
theorem stats_all_regions_present :
    (∀ (subs : List Submission) (r : String), r ∈ GHANA_REGIONS →
      (r, regionCount subs r) ∈ submissionsByRegion subs) ∧
    (∀ subs : List Submission, (∀ s ∈ subs, s.region ∈ GHANA_REGIONS) →
      regionsRepresented subs = ((subs.map Submission.region).dedup).length) ∧
    regionsRepresented oneSubmissionPerRegion = 16 ∧
    (∀ p ∈ submissionsByRegion oneSubmissionPerRegion, p.2 = 1) := by
  refine ⟨?_, regionsRepresented_eq_dedup, by decide, by decide⟩
  intro subs r hr
  unfold submissionsByRegion
  exact List.mem_map.mpr ⟨r, hr, rfl⟩

/-- Witness for C6: the Ashanti region is present in the mapping for the
scenario state, and the distinct-region equation holds there. -/
theorem stats_all_regions_present_witness :
    ("Ashanti", regionCount oneSubmissionPerRegion "Ashanti") ∈
      submissionsByRegion oneSubmissionPerRegion ∧
    regionsRepresented oneSubmissionPerRegion =
      ((oneSubmissionPerRegion.map Submission.region).dedup).length :=
  ⟨stats_all_regions_present.1 oneSubmissionPerRegion "Ashanti" (by decide),
   stats_all_regions_present.2.1 oneSubmissionPerRegion (by decide)⟩

/-! ## Toast queue (components/ui/use-toast) -/

/-- The `setTimeout` delay of `useToast` in milliseconds. -/
def toastRetentionMs : ℕ := 5000

/-- The toast module state: the fresh-id counter `toastId`, the current time
in milliseconds, the `toasts` queue as pairs of toast id and the time the
toast was added, and the pending `setTimeout` callbacks as pairs of toast id
and scheduled fire time. -/
structure ToastState where
  nextId : ℕ
  now : ℕ
  queue : List (ℕ × ℕ)
  timers : List (ℕ × ℕ)
deriving DecidableEq, Repr

/-- `toast(props)` from `useToast`: push the toast with the next id from the
global counter and schedule its removal 5000 ms later. -/
def addToast (s : ToastState) : ToastState :=
  { nextId := s.nextId + 1,
    now := s.now,
    queue := s.queue ++ [(s.nextId, s.now)],
    timers := s.timers ++ [(s.nextId, s.now + toastRetentionMs)] }

/-- `dismiss(id)` from `Toaster`: splice the first queue entry with this id
out of the queue (the pending timer is left alone; its later firing finds no
matching toast). -/
def dismissToast (s : ToastState) (i : ℕ) : ToastState :=
  { s with queue := s.queue.eraseP (fun p => decide (p.1 = i)) }

/-- The ids whose scheduled removal is due at time `t`. -/
def dueIds (timers : List (ℕ × ℕ)) (t : ℕ) : List ℕ :=
  (timers.filter (fun p => decide (p.2 ≤ t))).map Prod.fst

/-- One millisecond passes: every `setTimeout` callback whose delay has
elapsed runs, splicing its toast (if still present) out of the queue. Ids
are issued by a strictly increasing counter, so each due callback removes
exactly the entries bearing its id. -/
def tickToast (s : ToastState) : ToastState :=
  { nextId := s.nextId,
    now := s.now + 1,
    queue := s.queue.filter (fun p => decide (p.1 ∉ dueIds s.timers (s.now + 1))),
    timers := s.timers.filter (fun p => decide (s.now + 1 < p.2)) }

/-- The events the toast module reacts to. -/
inductive toastStep : ToastState → ToastState → Prop
  | add (s : ToastState) : toastStep s (addToast s)
  | dismiss (s : ToastState) (i : ℕ) : toastStep s (dismissToast s i)
  | tick (s : ToastState) : toastStep s (tickToast s)

/-- The initial module state: `toastId = 0`, empty `toasts` array. -/
def toastInit : ToastState :=
  { nextId := 0, now := 0, queue := [], timers := [] }

/-- States the toast module can reach from its initial state. -/
def toastReachable (s : ToastState) : Prop :=
  Relation.ReflTransGen toastStep toastInit s

/-- The inductive invariant: every queued toast has a pending removal timer
scheduled 5000 ms after it was added, and that deadline has not yet passed. -/
def toastInv (s : ToastState) : Prop :=
  ∀ p ∈ s.queue, (p.1, p.2 + toastRetentionMs) ∈ s.timers ∧
    s.now < p.2 + toastRetentionMs

theorem toastInv_init : toastInv toastInit := by
  intro p hp
  simp [toastInit] at hp

theorem toastInv_step {s s' : ToastState} (h : toastStep s s') (hinv : toastInv s) :
    toastInv s' := by
  cases h with
  | add =>
    intro p hp
    simp only [addToast] at hp ⊢
    rcases List.mem_append.mp hp with hold | hnew
    · rcases hinv p hold with ⟨ht, hlt⟩
      exact ⟨List.mem_append_left _ ht, hlt⟩
    · have hp' : p = (s.nextId, s.now) := by simpa using hnew
      subst hp'
      refine ⟨List.mem_append_right _ (by simp), ?_⟩
      have hpos : 0 < toastRetentionMs := by decide
      omega
  | dismiss i =>
    intro p hp
    simp only [dismissToast] at hp ⊢
    exact hinv p (List.mem_of_mem_eraseP hp)
  | tick =>
    intro p hp
    simp only [tickToast] at hp ⊢
    rcases List.mem_filter.mp hp with ⟨hold, hdec⟩
    have hnot : p.1 ∉ dueIds s.timers (s.now + 1) := by simpa using hdec
    rcases hinv p hold with ⟨ht, _⟩
    have hlt : s.now + 1 < p.2 + toastRetentionMs := by
      by_contra hc
      have hle : p.2 + toastRetentionMs ≤ s.now + 1 := by omega
      have hdue : p.1 ∈ dueIds s.timers (s.now + 1) := by
        unfold dueIds
        exact List.mem_map.mpr ⟨(p.1, p.2 + toastRetentionMs),
          List.mem_filter.mpr ⟨ht, by simpa using hle⟩, rfl⟩
      exact hnot hdue
    refine ⟨?_, hlt⟩
    exact List.mem_filter.mpr ⟨ht, by simpa using hlt⟩

theorem toastInv_reachable {s : ToastState} (h : toastReachable s) : toastInv s := by
  induction h with
  | refl => exact toastInv_init
  | tail _ hstep ih => exact toastInv_step hstep ih

/-- C8: in every reachable state of the toast module, every toast still in
the queue was added less than 5000 ms ago — an undismissed toast never
remains in the queue at or past its 5000 ms retention deadline, because the
timeout scheduled at its creation removes it. -/
theorem toast_removed_within_retention (s : ToastState) (h : toastReachable s) :
    ∀ p ∈ s.queue, s.now < p.2 + toastRetentionMs :=
  fun p hp => (toastInv_reachable h p hp).2

/-- Witness for C8: after one `toast()` call from the initial state, the
single queued toast (id 0, added at time 0) is within its deadline. -/
theorem toast_removed_within_retention_witness :
    (addToast toastInit).now < 0 + toastRetentionMs :=
  toast_removed_within_retention (addToast toastInit)
    (Relation.ReflTransGen.single (toastStep.add toastInit))
    (0, 0) (by decide)
